import Mathlib

/-!
Verification development for the spateo slice-alignment and mask-refinement
code (`spateo/tools/three_D_reconstruction.py` and
`spateo/preprocessing/segmentation/align.py`).

Numeric arrays are embedded over `ℚ` (exact field arithmetic standing for the
floating-point arithmetic of the source).  External numeric primitives that the
source calls but that are not part of the repository (square root, logarithm,
the POT optimal-transport solver, SVD, the Adam optimizer) are oracle
parameters of the embedded functions; facts about them that a claim needs are
explicit hypotheses.
-/

namespace Spateo

/-! ## Transport plans and the conditional-gradient solver (for `pairwise_align`)

`pairwise_align1` builds uniform marginals `a = np.ones((n,))/n`,
`b = np.ones((m,))/m` and hands them to POT's fused Gromov-Wasserstein solver.
The solver itself is an external library; its conditional-gradient iteration is
modelled below from the spec.
-/

/-- Matrices indexed by `Fin`, entries in `ℚ`. -/
def Mat (n m : ℕ) : Type := Fin n → Fin m → ℚ

/-- Row sum of a transport plan: `pi.sum(axis=1)` at row `i`. -/
def rowSum {n m : ℕ} (pi : Mat n m) (i : Fin n) : ℚ := ∑ j, pi i j

/-- Column sum of a transport plan: `pi.sum(axis=0)` at column `j`. -/
def colSum {n m : ℕ} (pi : Mat n m) (j : Fin m) : ℚ := ∑ i, pi i j

/-- Membership in the transport polytope `U(a, b)`: all entries non-negative,
row sums equal to `a`, column sums equal to `b`. -/
def inTransportPolytope {n m : ℕ} (a : Fin n → ℚ) (b : Fin m → ℚ)
    (pi : Mat n m) : Prop :=
  (∀ i j, 0 ≤ pi i j) ∧ (∀ i, rowSum pi i = a i) ∧ (∀ j, colSum pi j = b j)

/-- Embedding of `np.ones((n,)) / n`: the uniform marginal vector built by
`pairwise_align1` (line 59) and `pairwise_align2` (line 112). -/
def initDistribution (n : ℕ) : Fin n → ℚ := fun _ => 1 / (n : ℚ)

/-- Outer product `p[:, None] * q[None, :]`: the initial plan `G0` of the
conditional-gradient solver. -/
def outerPlan {n m : ℕ} (a : Fin n → ℚ) (b : Fin m → ℚ) : Mat n m :=
  fun i j => a i * b j

/-- Modelled from the spec: one line-search step of POT's conditional-gradient
solver (the solver lives in the external `ot` library, not in this
repository).  The next iterate is the convex combination `pi + γ·(E − pi)` of
the current plan with the solution `E` of the linearized sub-problem. -/
def cgStep {n m : ℕ} (pi E : Mat n m) (γ : ℚ) : Mat n m :=
  fun i j => pi i j + γ * (E i j - pi i j)

/-- Modelled from the spec: a run of the conditional-gradient solver, as the
fold of `cgStep` over the (finite, iteration-capped) list of sub-problem
solutions and step sizes produced along the way. -/
def cgRun {n m : ℕ} (G : Mat n m) : List (Mat n m × ℚ) → Mat n m
  | [] => G
  | (E, γ) :: rest => cgRun (cgStep G E γ) rest

lemma initDistribution_nonneg {n : ℕ} (i : Fin n) : 0 ≤ initDistribution n i := by
  unfold initDistribution
  positivity

lemma sum_initDistribution {n : ℕ} (hn : 0 < n) :
    (∑ i : Fin n, initDistribution n i) = 1 := by
  unfold initDistribution
  rw [Finset.sum_const, Finset.card_univ, Fintype.card_fin, nsmul_eq_mul]
  rw [mul_one_div, div_self]
  exact_mod_cast hn.ne'

lemma outerPlan_mem {n m : ℕ} (a : Fin n → ℚ) (b : Fin m → ℚ)
    (ha0 : ∀ i, 0 ≤ a i) (hb0 : ∀ j, 0 ≤ b j)
    (ha1 : (∑ i, a i) = 1) (hb1 : (∑ j, b j) = 1) :
    inTransportPolytope a b (outerPlan a b) := by
  refine ⟨fun i j => mul_nonneg (ha0 i) (hb0 j), fun i => ?_, fun j => ?_⟩
  · unfold rowSum outerPlan
    rw [← Finset.mul_sum, hb1, mul_one]
  · unfold colSum outerPlan
    rw [← Finset.sum_mul, ha1, one_mul]

lemma cgStep_mem {n m : ℕ} {a : Fin n → ℚ} {b : Fin m → ℚ} {pi E : Mat n m}
    {γ : ℚ} (hpi : inTransportPolytope a b pi) (hE : inTransportPolytope a b E)
    (hγ0 : 0 ≤ γ) (hγ1 : γ ≤ 1) :
    inTransportPolytope a b (cgStep pi E γ) := by
  obtain ⟨hpi0, hpir, hpic⟩ := hpi
  obtain ⟨hE0, hEr, hEc⟩ := hE
  refine ⟨fun i j => ?_, fun i => ?_, fun j => ?_⟩
  · have h1 := hpi0 i j
    have h2 := hE0 i j
    unfold cgStep
    nlinarith
  · have h1 := hpir i
    have h2 := hEr i
    unfold cgStep rowSum
    unfold rowSum at h1 h2
    rw [Finset.sum_add_distrib, ← Finset.mul_sum, Finset.sum_sub_distrib, h1, h2]
    ring
  · have h1 := hpic j
    have h2 := hEc j
    unfold cgStep colSum
    unfold colSum at h1 h2
    rw [Finset.sum_add_distrib, ← Finset.mul_sum, Finset.sum_sub_distrib, h1, h2]
    ring

lemma cgRun_mem {n m : ℕ} {a : Fin n → ℚ} {b : Fin m → ℚ}
    (steps : List (Mat n m × ℚ)) (G : Mat n m)
    (hG : inTransportPolytope a b G)
    (hsteps : ∀ s ∈ steps, inTransportPolytope a b s.1 ∧ 0 ≤ s.2 ∧ s.2 ≤ 1) :
    inTransportPolytope a b (cgRun G steps) := by
  induction steps generalizing G with
  | nil => exact hG
  | cons s rest ih =>
      obtain ⟨E, γ⟩ := s
      have hs := hsteps (E, γ) (List.mem_cons_self _ _)
      exact ih (cgStep G E γ)
        (cgStep_mem hG hs.1 hs.2.1 hs.2.2)
        (fun t ht => hsteps t (List.mem_cons_of_mem _ ht))

/-! ## Slices and the two `pairwise_align` code paths

A `Slice` embeds the parts of an `AnnData` object that `pairwise_align1` and
`pairwise_align2` read: `obsm["spatial"]` (2D point coordinates),
`var.index` (gene names) and `X` (the expression matrix, one row per point).
-/

/-- Embedding of the slice data read by the aligners. -/
structure Slice (n : ℕ) where
  coords : Fin n → ℚ × ℚ
  genes : List String
  expr : Fin n → List ℚ

/-- Gene lookup for column subsetting `slice[:, common_genes]`: the value of
the column named `g` in an expression row. -/
def lookupGene (genes : List String) (row : List ℚ) (g : String) : ℚ :=
  match (genes.zip row).find? (fun p => p.1 = g) with
  | some p => p.2
  | none => 0

/-- Column subsetting of one expression row to the gene list `keep`, in the
order of `keep` (AnnData reorders columns to the requested order). -/
def subsetRow (genes keep : List String) (row : List ℚ) : List ℚ :=
  keep.map (lookupGene genes row)

/-- Embedding of `scipy.spatial.distance_matrix` (external library): pairwise
Euclidean distances, with the square root as an oracle parameter. -/
def distance_matrix (sqrt : ℚ → ℚ) {n : ℕ} (c : Fin n → ℚ × ℚ) : Mat n n :=
  fun i j =>
    sqrt (((c i).1 - (c j).1) ^ 2 + ((c i).2 - (c j).2) ^ 2)

/-- Dot product of two rows, `np.dot` on equal-length vectors. -/
def dotList (xs ys : List ℚ) : ℚ :=
  ((xs.zip ys).map (fun p => p.1 * p.2)).sum

/-- Oracle bundle for the external POT library (`ot.gromov.init_matrix`,
`ot.gromov.gwloss`, `ot.gromov.gwggrad`, `ot.optim.cg`).  The final three
matrix arguments of `cg` are the keyword arguments `C1`, `C2`, `constC`
forwarded by the caller. -/
structure OTLib where
  init_matrix : {n m : ℕ} → Mat n n → Mat m m → (Fin n → ℚ) → (Fin m → ℚ) →
    Mat n m × Mat n n × Mat m m
  gwloss : {n m : ℕ} → Mat n m → Mat n n → Mat m m → Mat n m → ℚ
  gwggrad : {n m : ℕ} → Mat n m → Mat n n → Mat m m → Mat n m → Mat n m
  cg : {n m : ℕ} → (Fin n → ℚ) → (Fin m → ℚ) → Mat n m → ℚ →
    (Mat n m → ℚ) → (Mat n m → Mat n m) → Mat n m → ℕ → ℕ →
    Mat n n → Mat m m → Mat n m → Mat n m

/-- Modelled from the spec: POT's `ot.gromov.fused_gromov_wasserstein`
(external library, absent from the repository).  Per the spec it minimizes
`(1−α)⟨M,π⟩ + α·GW(DA,DB,π)` by conditional gradient over the transport
polytope with the given marginals: it builds the Gromov-Wasserstein constants
with `init_matrix`, closes the GW loss and gradient over them, starts from the
product plan `p ⊗ q`, and calls the generic conditional-gradient solver `cg`
on the scaled feature cost `(1−α)·M`. -/
def fused_gromov_wasserstein (lib : OTLib) {n m : ℕ} (M : Mat n m)
    (C1 : Mat n n) (C2 : Mat m m) (p : Fin n → ℚ) (q : Fin m → ℚ)
    (alpha : ℚ) (numItermax numItermaxEmd : ℕ) : Mat n m :=
  let icc := lib.init_matrix C1 C2 p q
  let constC := icc.1
  let hC1 := icc.2.1
  let hC2 := icc.2.2
  let G0 : Mat n m := fun i j => p i * q j
  lib.cg p q (fun i j => (1 - alpha) * M i j) alpha
    (fun G => lib.gwloss constC hC1 hC2 G)
    (fun G => lib.gwggrad constC hC1 hC2 G)
    G0 numItermax numItermaxEmd C1 C2 constC

/-- Embedding of `pairwise_align1` (CPU path, lines 16–65): subset both slices
to the common genes, build the spatial distance matrices, build the
KL-divergence expression cost `M`, build uniform marginals, and call the fused
Gromov-Wasserstein solver. -/
def pairwise_align1 (lib : OTLib) (sqrt log : ℚ → ℚ) {n m : ℕ}
    (slice1 : Slice n) (slice2 : Slice m) (alpha : ℚ)
    (numItermax numItermaxEmd : ℕ) : Mat n m :=
  let common_genes := slice1.genes.filter (fun v => v ∈ slice2.genes)
  let AX := fun i => subsetRow slice1.genes common_genes (slice1.expr i)
  let BX := fun j => subsetRow slice2.genes common_genes (slice2.expr j)
  let DA := distance_matrix sqrt slice1.coords
  let DB := distance_matrix sqrt slice2.coords
  let X := fun i => (AX i).map (fun v => v + 1 / 100)
  let Y := fun j => (BX j).map (fun v => v + 1 / 100)
  let Xn := fun i => (X i).map (fun v => v / (X i).sum)
  let Yn := fun j => (Y j).map (fun v => v / (Y j).sum)
  let logX := fun i => (Xn i).map log
  let logY := fun j => (Yn j).map log
  let X_log_X := fun i => dotList (Xn i) (logX i)
  let M : Mat n m := fun i j => X_log_X i - dotList (Xn i) (logY j)
  let a := initDistribution n
  let b := initDistribution m
  fused_gromov_wasserstein lib M DA DB a b alpha numItermax numItermaxEmd

/-- Embedding of `pairwise_align2` (accelerator path, lines 67–135): the same
gene subsetting, distance matrices, expression cost and uniform marginals as
`pairwise_align1`, followed by a manual expansion of the solver: `init_matrix`
for the GW constants, GW loss/gradient closures, product initial plan `G0`,
and a direct call to the conditional-gradient solver on `(1−α)·M`.  The
`torch.from_numpy(...).to(device)` / `.cpu().numpy()` transfers preserve
values and are modelled as identities. -/
def pairwise_align2 (lib : OTLib) (sqrt log : ℚ → ℚ) {n m : ℕ}
    (slice1 : Slice n) (slice2 : Slice m) (alpha : ℚ)
    (numItermax numItermaxEmd : ℕ) : Mat n m :=
  let common_genes := slice1.genes.filter (fun v => v ∈ slice2.genes)
  let AX := fun i => subsetRow slice1.genes common_genes (slice1.expr i)
  let BX := fun j => subsetRow slice2.genes common_genes (slice2.expr j)
  let DA := distance_matrix sqrt slice1.coords
  let DB := distance_matrix sqrt slice2.coords
  let X := fun i => (AX i).map (fun v => v + 1 / 100)
  let Y := fun j => (BX j).map (fun v => v + 1 / 100)
  let Xn := fun i => (X i).map (fun v => v / (X i).sum)
  let Yn := fun j => (Y j).map (fun v => v / (Y j).sum)
  let logX := fun i => (Xn i).map log
  let logY := fun j => (Yn j).map log
  let XlogX := fun i => dotList (Xn i) (logX i)
  let M : Mat n m := fun i j => XlogX i - dotList (Xn i) (logY j)
  let p := initDistribution n
  let q := initDistribution m
  let icc := lib.init_matrix DA DB p q
  let constC := icc.1
  let hC1 := icc.2.1
  let hC2 := icc.2.2
  let G0 : Mat n m := fun i j => p i * q j
  lib.cg p q (fun i j => (1 - alpha) * M i j) alpha
    (fun G => lib.gwloss constC hC1 hC2 G)
    (fun G => lib.gwggrad constC hC1 hC2 G)
    G0 numItermax numItermaxEmd DA DB constC

/-- Conformance of an `OTLib` oracle to the spec's description of the
conditional-gradient solver: `cg` returns the fold of line-search steps, each
toward an exact-transport sub-problem solution lying in the transport polytope
of its marginals, starting from the supplied initial plan. -/
def CGConforms (lib : OTLib) : Prop :=
  ∀ {n2 m2 : ℕ} (p : Fin n2 → ℚ) (q : Fin m2 → ℚ) (M : Mat n2 m2) (a : ℚ)
    (f : Mat n2 m2 → ℚ) (df : Mat n2 m2 → Mat n2 m2) (G0 : Mat n2 m2)
    (i1 i2 : ℕ) (C1 : Mat n2 n2) (C2 : Mat m2 m2) (cC : Mat n2 m2),
    ∃ steps : List (Mat n2 m2 × ℚ),
      (∀ s ∈ steps, inTransportPolytope p q s.1 ∧ 0 ≤ s.2 ∧ s.2 ≤ 1) ∧
      lib.cg p q M a f df G0 i1 i2 C1 C2 cC = cgRun G0 steps

/-- C1: the marginals `pairwise_align1` passes to the solver are exactly the
uniform vectors `1/N1` and `1/N2`, and for any solver oracle conforming to
the conditional-gradient scheme (product initial plan, line-search steps
toward sub-problem solutions in the transport polytope) the plan returned by
`pairwise_align1` has all entries non-negative, every row sum equal to `1/N1`
and every column sum equal to `1/N2` (exactly, in the exact-arithmetic model
standing for "within solver tolerance"). -/
theorem pairwise_align_plan_in_polytope (lib : OTLib) (sqrt log : ℚ → ℚ)
    {n m : ℕ} (hn : 0 < n) (hm : 0 < m)
    (slice1 : Slice n) (slice2 : Slice m) (alpha : ℚ)
    (numItermax numItermaxEmd : ℕ) (hcg : CGConforms lib) :
    (∀ i, initDistribution n i = 1 / (n : ℚ)) ∧
    (∀ j, initDistribution m j = 1 / (m : ℚ)) ∧
    (∀ i j, 0 ≤ pairwise_align1 lib sqrt log slice1 slice2 alpha
      numItermax numItermaxEmd i j) ∧
    (∀ i, rowSum (pairwise_align1 lib sqrt log slice1 slice2 alpha
      numItermax numItermaxEmd) i = 1 / (n : ℚ)) ∧
    (∀ j, colSum (pairwise_align1 lib sqrt log slice1 slice2 alpha
      numItermax numItermaxEmd) j = 1 / (m : ℚ)) := by
  have key : inTransportPolytope (initDistribution n) (initDistribution m)
      (pairwise_align1 lib sqrt log slice1 slice2 alpha numItermax numItermaxEmd) := by
    obtain ⟨steps, hsteps, heq⟩ := hcg (initDistribution n) (initDistribution m)
      _ alpha _ _ (outerPlan (initDistribution n) (initDistribution m))
      numItermax numItermaxEmd _ _ _
    have hpi : pairwise_align1 lib sqrt log slice1 slice2 alpha
        numItermax numItermaxEmd = cgRun
          (outerPlan (initDistribution n) (initDistribution m)) steps := heq
    rw [hpi]
    exact cgRun_mem steps _
      (outerPlan_mem _ _ initDistribution_nonneg initDistribution_nonneg
        (sum_initDistribution hn) (sum_initDistribution hm))
      hsteps
  exact ⟨fun _ => rfl, fun _ => rfl, key.1, fun i => key.2.1 i, fun j => key.2.2 j⟩

/-- Witness for C1 at a concrete instance: one-point slices and a conforming
solver oracle that performs zero line-search steps (returning its initial
plan). -/
theorem pairwise_align_plan_in_polytope_witness :
    rowSum (pairwise_align1
      ⟨fun _ _ _ _ => (fun _ _ => 0, fun _ _ => 0, fun _ _ => 0),
        fun _ _ _ _ => 0, fun _ _ _ G => G,
        fun _ _ _ _ _ _ G0 _ _ _ _ _ => G0⟩
      id id (⟨fun _ => (0, 0), [], fun _ => []⟩ : Slice 1)
      (⟨fun _ => (0, 0), [], fun _ => []⟩ : Slice 1) (1 / 10) 200 100000) 0
        = 1 / ((1 : ℕ) : ℚ) :=
  (pairwise_align_plan_in_polytope
    ⟨fun _ _ _ _ => (fun _ _ => 0, fun _ _ => 0, fun _ _ => 0),
      fun _ _ _ _ => 0, fun _ _ _ G => G,
      fun _ _ _ _ _ _ G0 _ _ _ _ _ => G0⟩
    id id (by decide) (by decide) (⟨fun _ => (0, 0), [], fun _ => []⟩ : Slice 1)
    (⟨fun _ => (0, 0), [], fun _ => []⟩ : Slice 1) (1 / 10) 200 100000
    (by
      intro n2 m2 p q M a f df G0 i1 i2 C1 C2 cC
      exact ⟨[], by simp, rfl⟩)).2.2.2.1 0

/-- C7: the accelerator-backed path `pairwise_align2` returns the same
transport plan as the CPU path `pairwise_align1` on every input: both build
the same distance matrices, the same expression cost, the same uniform
marginals, and invoke the same conditional-gradient solver on the same
arguments; only the (value-preserving) device placement of the GW tensors
differs. -/
theorem pairwise_align2_eq_pairwise_align1 (lib : OTLib) (sqrt log : ℚ → ℚ)
    {n m : ℕ} (slice1 : Slice n) (slice2 : Slice m) (alpha : ℚ)
    (numItermax numItermaxEmd : ℕ) :
    pairwise_align2 lib sqrt log slice1 slice2 alpha numItermax numItermaxEmd
      = pairwise_align1 lib sqrt log slice1 slice2 alpha numItermax numItermaxEmd := by
  rfl

/-! ## Procrustes superposition (`slice_alignment`, lines 195–211)

The superposition step works on 2-column coordinate matrices.  SVD
(`np.linalg.svd`, external library) is an oracle returning `(U, S, Vt)`. -/

open Matrix

/-- Type of the SVD oracle: for a 2×2 input it returns `(U, S, Vt)`. -/
def SVD : Type :=
  Matrix (Fin 2) (Fin 2) ℚ →
    Matrix (Fin 2) (Fin 2) ℚ × (Fin 2 → ℚ) × Matrix (Fin 2) (Fin 2) ℚ

/-- Embedding of line 201: `rawSlice1Coor - pi.sum(axis=1).dot(rawSlice1Coor)`,
slice A centered on the π-row-sum-weighted centroid. -/
def centeredCoords1 {n m : ℕ} (pi : Matrix (Fin n) (Fin m) ℚ)
    (A : Matrix (Fin n) (Fin 2) ℚ) : Matrix (Fin n) (Fin 2) ℚ :=
  Matrix.of fun i c => A i c - Matrix.vecMul (fun i2 => ∑ j, pi i2 j) A c

/-- Embedding of line 202: `rawSlice2Coor - pi.sum(axis=0).dot(rawSlice2Coor)`,
slice B centered on the π-column-sum-weighted centroid. -/
def centeredCoords2 {n m : ℕ} (pi : Matrix (Fin n) (Fin m) ℚ)
    (B : Matrix (Fin m) (Fin 2) ℚ) : Matrix (Fin m) (Fin 2) ℚ :=
  Matrix.of fun j c => B j c - Matrix.vecMul (fun j2 => ∑ i, pi i j2) B c

/-- Embedding of line 203: `H = slice2Coor.T.dot(pi.T.dot(slice1Coor))`. -/
def crossCov {n m : ℕ} (pi : Matrix (Fin n) (Fin m) ℚ)
    (A : Matrix (Fin n) (Fin 2) ℚ) (B : Matrix (Fin m) (Fin 2) ℚ) :
    Matrix (Fin 2) (Fin 2) ℚ :=
  (centeredCoords2 pi B)ᵀ * (piᵀ * centeredCoords1 pi A)

/-- Embedding of lines 204–205: `U, S, Vt = np.linalg.svd(H)` followed by
`R = Vt.T.dot(U.T)`.  No reflection correction is applied to `R`. -/
def procrustesR {n m : ℕ} (svd : SVD) (pi : Matrix (Fin n) (Fin m) ℚ)
    (A : Matrix (Fin n) (Fin 2) ℚ) (B : Matrix (Fin m) (Fin 2) ℚ) :
    Matrix (Fin 2) (Fin 2) ℚ :=
  let usv := svd (crossCov pi A B)
  usv.2.2ᵀ * usv.1ᵀ

/-- Embedding of the whole superposition step (lines 201–206): the pair of
updated coordinate matrices `(slice1Coor, slice2Coor)` where the final line is
`slice2Coor = R.dot(slice2Coor.T).T`. -/
def superpose {n m : ℕ} (svd : SVD) (pi : Matrix (Fin n) (Fin m) ℚ)
    (A : Matrix (Fin n) (Fin 2) ℚ) (B : Matrix (Fin m) (Fin 2) ℚ) :
    Matrix (Fin n) (Fin 2) ℚ × Matrix (Fin m) (Fin 2) ℚ :=
  let slice1Coor := centeredCoords1 pi A
  let slice2Coor := centeredCoords2 pi B
  let R := procrustesR svd pi A B
  (slice1Coor, (R * slice2Coorᵀ)ᵀ)

/-- Procrustes superposition exactly as the spec words it: weighted centroids
from the row and column sums of π, centering, cross-covariance
`H = centeredBᵀ·πᵀ·centeredA`, SVD `H = U·S·Vᵀ`, rotation `R = V·Uᵀ` taken
as-is (no reflection correction, whatever `det R` is), `R` applied to the
centered B coordinates, A left centered and unrotated. -/
def superposeSpec {n m : ℕ} (svd : SVD) (pi : Matrix (Fin n) (Fin m) ℚ)
    (A : Matrix (Fin n) (Fin 2) ℚ) (B : Matrix (Fin m) (Fin 2) ℚ) :
    Matrix (Fin n) (Fin 2) ℚ × Matrix (Fin m) (Fin 2) ℚ :=
  let centA := Matrix.of fun i c =>
    A i c - Matrix.vecMul (fun i2 => ∑ j, pi i2 j) A c
  let centB := Matrix.of fun j c =>
    B j c - Matrix.vecMul (fun j2 => ∑ i, pi i j2) B c
  let H := centBᵀ * piᵀ * centA
  let usv := svd H
  let U := usv.1
  let Vt := usv.2.2
  let R := Vtᵀ * Uᵀ
  (centA, centB * Rᵀ)

/-- C2: for every transport plan, coordinate pair and SVD oracle — including
oracles whose rotation has determinant −1, since the equality below holds with
no hypothesis on the SVD output — the superposition step of `slice_alignment`
computes exactly the spec's composition of steps: centering on the π-weighted
centroids, `H = centeredBᵀ·πᵀ·centeredA`, `R = V·Uᵀ` with no reflection
correction, `R` applied to centered B, A left centered and unrotated.  Both
sides are plain functions, so the step is deterministic and non-iterative. -/
theorem superpose_eq_superposeSpec {n m : ℕ} (svd : SVD)
    (pi : Matrix (Fin n) (Fin m) ℚ) (A : Matrix (Fin n) (Fin 2) ℚ)
    (B : Matrix (Fin m) (Fin 2) ℚ) :
    superpose svd pi A B = superposeSpec svd pi A B := by
  simp only [superpose, superposeSpec, procrustesR, crossCov, centeredCoords1,
    centeredCoords2, Matrix.mul_assoc, Matrix.transpose_mul,
    Matrix.transpose_transpose]

/-- C3: whenever the SVD oracle returns orthogonal factors `U` and `Vt` at the
cross-covariance matrix (as `np.linalg.svd` does), the rotation
`R = Vtᵀ·Uᵀ` of the superposition step is orthogonal (`R·Rᵀ = 1`) and its
determinant is `1` or `−1`. -/
theorem procrustesR_orthogonal {n m : ℕ} (svd : SVD)
    (pi : Matrix (Fin n) (Fin m) ℚ) (A : Matrix (Fin n) (Fin 2) ℚ)
    (B : Matrix (Fin m) (Fin 2) ℚ)
    (hU : (svd (crossCov pi A B)).1 * ((svd (crossCov pi A B)).1)ᵀ = 1)
    (hVt : (svd (crossCov pi A B)).2.2 * ((svd (crossCov pi A B)).2.2)ᵀ = 1) :
    procrustesR svd pi A B * (procrustesR svd pi A B)ᵀ = 1 ∧
      (Matrix.det (procrustesR svd pi A B) = 1 ∨
        Matrix.det (procrustesR svd pi A B) = -1) := by
  set U := (svd (crossCov pi A B)).1 with hUdef
  set Vt := (svd (crossCov pi A B)).2.2 with hVtdef
  have hR : procrustesR svd pi A B = Vtᵀ * Uᵀ := rfl
  have hUtU : Uᵀ * U = 1 := Matrix.mul_eq_one_comm.mp hU
  have hVtV : Vtᵀ * Vt = 1 := Matrix.mul_eq_one_comm.mp hVt
  have horth : procrustesR svd pi A B * (procrustesR svd pi A B)ᵀ = 1 := by
    rw [hR, Matrix.transpose_mul, Matrix.transpose_transpose,
      Matrix.transpose_transpose, Matrix.mul_assoc,
      ← Matrix.mul_assoc Uᵀ U Vt, hUtU, Matrix.one_mul, hVtV]
  refine ⟨horth, ?_⟩
  have hdet : Matrix.det (procrustesR svd pi A B) *
      Matrix.det (procrustesR svd pi A B) = 1 := by
    have h := congrArg Matrix.det horth
    rwa [Matrix.det_mul, Matrix.det_transpose, Matrix.det_one] at h
  exact mul_self_eq_one_iff.mp hdet

/-- Witness for C3 at a concrete instance: the SVD oracle returning identity
factors on a 1-point pair of slices with zero plan and zero coordinates. -/
theorem procrustesR_orthogonal_witness :
    procrustesR (fun _ => (1, fun _ => 0, 1)) (0 : Matrix (Fin 1) (Fin 1) ℚ) 0 0 *
        (procrustesR (fun _ => (1, fun _ => 0, 1)) (0 : Matrix (Fin 1) (Fin 1) ℚ) 0 0)ᵀ = 1 ∧
      (Matrix.det (procrustesR (fun _ => (1, fun _ => 0, 1))
          (0 : Matrix (Fin 1) (Fin 1) ℚ) 0 0) = 1 ∨
        Matrix.det (procrustesR (fun _ => (1, fun _ => 0, 1))
          (0 : Matrix (Fin 1) (Fin 1) ℚ) 0 0) = -1) :=
  procrustesR_orthogonal (fun _ => (1, fun _ => 0, 1)) 0 0 0
    (by simp) (by simp)

/-! ## AlignmentRefiner: dtype check, weight map, training loop
(`spateo/preprocessing/segmentation/align.py`) -/

/-- Element dtype tag of a numpy array, as the constructor check reads it. -/
inductive NPDType
  | bool
  | int
  | float
deriving DecidableEq

/-- Minimal embedding of a 2D numpy array as `AlignmentRefiner.__init__` reads
it: its element dtype and the boolean reading of its entries. -/
structure NPArray (h w : ℕ) where
  dtype : NPDType
  bdata : Fin h → Fin w → Bool

/-- Embedding of `reference.sum()` on a boolean mask: the number of foreground
(`True`) pixels. -/
def trueCount {h w : ℕ} (mask : Fin h → Fin w → Bool) : ℕ :=
  ∑ i, ∑ j, (if mask i j then 1 else 0)

/-- Embedding of `(~reference).sum()`: the number of background (`False`)
pixels. -/
def falseCount {h w : ℕ} (mask : Fin h → Fin w → Bool) : ℕ :=
  ∑ i, ∑ j, (if mask i j then 0 else 1)

/-- Embedding of the weight map built at lines 26–28:
`np.where(reference, reference.size / (2 * reference.sum()),
reference.size / (2 * (~reference).sum()))`, with `reference.size = h·w`. -/
def weightMap {h w : ℕ} (mask : Fin h → Fin w → Bool) : Fin h → Fin w → ℚ :=
  fun i j =>
    if mask i j then (h * w : ℚ) / (2 * trueCount mask)
    else (h * w : ℚ) / (2 * falseCount mask)

/-- State built by a successful `AlignmentRefiner.__init__`: the two masks,
the weight map, and the (initially empty) loss history. -/
structure RefinerInit (h w : ℕ) where
  reference : Fin h → Fin w → Bool
  to_align : Fin h → Fin w → Bool
  weight : Fin h → Fin w → ℚ
  history : List ℚ

/-- Embedding of `AlignmentRefiner.__init__` (lines 20–30): raise
`PreprocessingError` when either input array has a non-boolean dtype — the
check is the first statement, before any weight-map computation or training
state exists, and the error branch builds no state — otherwise build the mask
tensors, the weight map and an empty history. -/
def alignmentRefinerInit {h w : ℕ} (reference to_align : NPArray h w) :
    Except String (RefinerInit h w) :=
  if reference.dtype ≠ NPDType.bool ∨ to_align.dtype ≠ NPDType.bool then
    Except.error "PreprocessingError: AlignmentRefiner only supports boolean arrays."
  else
    Except.ok
      { reference := reference.bdata
        to_align := to_align.bdata
        weight := weightMap reference.bdata
        history := [] }

/-- Sum of the weight map over the foreground pixels. -/
def fgWeightSum {h w : ℕ} (mask : Fin h → Fin w → Bool) : ℚ :=
  ∑ i, ∑ j, (if mask i j then weightMap mask i j else 0)

/-- Sum of the weight map over the background pixels. -/
def bgWeightSum {h w : ℕ} (mask : Fin h → Fin w → Bool) : ℚ :=
  ∑ i, ∑ j, (if mask i j then 0 else weightMap mask i j)

lemma sum_ite_true_const {h w : ℕ} (mask : Fin h → Fin w → Bool) (c : ℚ) :
    (∑ i, ∑ j, (if mask i j then c else 0)) = c * (trueCount mask : ℚ) := by
  unfold trueCount
  push_cast
  rw [Finset.mul_sum]
  refine Finset.sum_congr rfl fun i _ => ?_
  rw [Finset.mul_sum]
  refine Finset.sum_congr rfl fun j _ => ?_
  by_cases hij : mask i j <;> simp [hij]

lemma sum_ite_false_const {h w : ℕ} (mask : Fin h → Fin w → Bool) (c : ℚ) :
    (∑ i, ∑ j, (if mask i j then 0 else c)) = c * (falseCount mask : ℚ) := by
  unfold falseCount
  push_cast
  rw [Finset.mul_sum]
  refine Finset.sum_congr rfl fun i _ => ?_
  rw [Finset.mul_sum]
  refine Finset.sum_congr rfl fun j _ => ?_
  by_cases hij : mask i j <;> simp [hij]

/-- C4: each foreground pixel of the weight map carries
`size/(2·foregroundCount)`, each background pixel `size/(2·backgroundCount)`,
and on a mask containing both classes the total foreground weight and the
total background weight are both `size/2`, hence equal. -/
theorem weightMap_balanced {h w : ℕ} (mask : Fin h → Fin w → Bool)
    (hfg : 0 < trueCount mask) (hbg : 0 < falseCount mask) :
    (∀ i j, mask i j = true →
      weightMap mask i j = (h * w : ℚ) / (2 * trueCount mask)) ∧
    (∀ i j, mask i j = false →
      weightMap mask i j = (h * w : ℚ) / (2 * falseCount mask)) ∧
    fgWeightSum mask = (h * w : ℚ) / 2 ∧
    bgWeightSum mask = (h * w : ℚ) / 2 := by
  have hfg0 : (trueCount mask : ℚ) ≠ 0 := by
    exact_mod_cast hfg.ne'
  have hbg0 : (falseCount mask : ℚ) ≠ 0 := by
    exact_mod_cast hbg.ne'
  refine ⟨fun i j hij => by simp [weightMap, hij], fun i j hij => by simp [weightMap, hij], ?_, ?_⟩
  · have : fgWeightSum mask
        = ((h * w : ℚ) / (2 * trueCount mask)) * (trueCount mask : ℚ) := by
      unfold fgWeightSum
      rw [← sum_ite_true_const mask ((h * w : ℚ) / (2 * trueCount mask))]
      refine Finset.sum_congr rfl fun i _ => Finset.sum_congr rfl fun j _ => ?_
      by_cases hij : mask i j <;> simp [weightMap, hij]
    rw [this]
    field_simp
    ring
  · have : bgWeightSum mask
        = ((h * w : ℚ) / (2 * falseCount mask)) * (falseCount mask : ℚ) := by
      unfold bgWeightSum
      rw [← sum_ite_false_const mask ((h * w : ℚ) / (2 * falseCount mask))]
      refine Finset.sum_congr rfl fun i _ => Finset.sum_congr rfl fun j _ => ?_
      by_cases hij : mask i j <;> simp [weightMap, hij]
    rw [this]
    field_simp
    ring

/-- Witness for C4 on the concrete 1×2 mask `[[True, False]]`: the total
foreground weight equals `size/2 = 1`. -/
theorem weightMap_balanced_witness :
    fgWeightSum (fun (_ : Fin 1) (j : Fin 2) => j == 0) = ((1 : ℕ) * (2 : ℕ) : ℚ) / 2 :=
  (weightMap_balanced (fun (_ : Fin 1) (j : Fin 2) => j == 0)
    (by decide) (by decide)).2.2.1

/-- C6: constructing a refiner raises `PreprocessingError` exactly when the
reference mask or the moving mask has a non-boolean dtype (both refiner
variants run this check first, through `super().__init__`); the error branch
is taken before any weight map or training state is built, so it carries no
refiner state. -/
theorem alignmentRefinerInit_error_iff {h w : ℕ} (reference to_align : NPArray h w) :
    (∃ e, alignmentRefinerInit reference to_align = Except.error e) ↔
      (reference.dtype ≠ NPDType.bool ∨ to_align.dtype ≠ NPDType.bool) := by
  unfold alignmentRefinerInit
  split
  · rename_i hcond
    exact ⟨fun _ => hcond, fun _ => ⟨_, rfl⟩⟩
  · rename_i hcond
    constructor
    · rintro ⟨e, he⟩
      cases he
    · intro hc
      exact absurd hc hcond

/-- C10: on a boolean reference mask made of a single class, construction
still succeeds — the branch of `np.where` whose denominator is the zero count
of the missing class is never selected — and the weight map is constantly
`1/2`: `size/(2·size)` from the present class on every pixel. -/
theorem weightMap_single_class {h w : ℕ} (reference to_align : NPArray h w)
    (hh : 0 < h) (hww : 0 < w)
    (href : reference.dtype = NPDType.bool) (halign : to_align.dtype = NPDType.bool)
    (hsingle : (∀ i j, reference.bdata i j = true) ∨
      (∀ i j, reference.bdata i j = false)) :
    ∃ st, alignmentRefinerInit reference to_align = Except.ok st ∧
      ∀ i j, st.weight i j = 1 / 2 := by
  have hsz : ((h : ℚ) * w) ≠ 0 := by
    have : (0 : ℚ) < (h : ℚ) * w := by
      have h1 : (0 : ℚ) < (h : ℚ) := by exact_mod_cast hh
      have h2 : (0 : ℚ) < (w : ℚ) := by exact_mod_cast hww
      positivity
    exact this.ne'
  refine ⟨{ reference := reference.bdata, to_align := to_align.bdata,
            weight := weightMap reference.bdata, history := [] },
    by simp [alignmentRefinerInit, href, halign], fun i j => ?_⟩
  rcases hsingle with hall | hall
  · have hcount : trueCount reference.bdata = h * w := by
      unfold trueCount
      simp [hall]
    simp only [weightMap, hall i j, if_true, hcount]
    push_cast
    rw [div_eq_div_iff (by positivity) (by norm_num)]
    ring
  · have hcount : falseCount reference.bdata = h * w := by
      unfold falseCount
      simp [hall]
    simp only [weightMap, hall i j, if_false, hcount]
    push_cast
    rw [div_eq_div_iff (by positivity) (by norm_num)]
    ring

/-- Witness for C10 on the concrete 1×1 all-foreground boolean mask. -/
theorem weightMap_single_class_witness :
    ∃ st, alignmentRefinerInit
        (⟨NPDType.bool, fun _ _ => true⟩ : NPArray 1 1)
        (⟨NPDType.bool, fun _ _ => true⟩ : NPArray 1 1) = Except.ok st ∧
      ∀ i j, st.weight i j = 1 / 2 :=
  weightMap_single_class _ _ (by decide) (by decide) rfl rfl
    (Or.inl fun _ _ => rfl)

/-! ## AlignmentRefiner.train (lines 43–57)

The forward pass, the weighted loss and the Adam update act on torch tensors;
they enter the model as oracles: `lossOf` is the composition of the module
forward pass with `self.loss`, `step` is one
`zero_grad(); backward(); optimizer.step()` Adam update of the parameters and
the optimizer state. -/

/-- Training state threaded through `AlignmentRefiner.train`: learnable
parameters, internal optimizer state, and `self.history["loss"]`. -/
structure TrainState (P O : Type) where
  params : P
  optState : O
  history : List ℚ

/-- Embedding of one iteration of the `for i in range(n_epochs)` body: one
forward pass and loss evaluation, append the scalar loss to the history, then
one optimizer update.  Nothing in the body inspects the loss value. -/
def trainEpoch {P O : Type} (lossOf : P → ℚ) (step : P → O → P × O)
    (s : TrainState P O) : TrainState P O :=
  let loss := lossOf s.params
  let po := step s.params s.optState
  { params := po.1, optState := po.2, history := s.history ++ [loss] }

/-- Embedding of `AlignmentRefiner.train(n_epochs)`: the epoch body run
exactly `n_epochs` times — no break, no convergence test. -/
def trainLoop {P O : Type} (lossOf : P → ℚ) (step : P → O → P × O) :
    ℕ → TrainState P O → TrainState P O
  | 0, s => s
  | Nat.succ k, s => trainLoop lossOf step k (trainEpoch lossOf step s)

/-- Parameter/optimizer trajectory: the pair after `k` optimizer updates. -/
def stepIter {P O : Type} (step : P → O → P × O) : ℕ → P × O → P × O
  | 0, po => po
  | Nat.succ k, po => stepIter step k (step po.1 po.2)

lemma stepIter_succ {P O : Type} (step : P → O → P × O) (k : ℕ) (po : P × O) :
    stepIter step (k + 1) po = stepIter step k (step po.1 po.2) := rfl

lemma trainLoop_spec {P O : Type} (lossOf : P → ℚ) (step : P → O → P × O)
    (n : ℕ) (s : TrainState P O) :
    trainLoop lossOf step n s =
      { params := (stepIter step n (s.params, s.optState)).1
        optState := (stepIter step n (s.params, s.optState)).2
        history := s.history ++ (List.range n).map
          (fun k => lossOf (stepIter step k (s.params, s.optState)).1) } := by
  induction n generalizing s with
  | zero => simp [trainLoop, stepIter]
  | succ k ih =>
      show trainLoop lossOf step k (trainEpoch lossOf step s) = _
      rw [ih (trainEpoch lossOf step s)]
      simp only [trainEpoch, stepIter_succ, Prod.mk.eta, List.range_succ_eq_map,
        List.map_cons, List.map_map, List.append_assoc, List.cons_append,
        List.nil_append, List.singleton_append, Function.comp]
      rfl

/-- C5: for every epoch count `N`, `train(N)` runs exactly `N` epochs: the
final state performs the `k`-th Adam update on the parameters reached after
`k` epochs, and the loss history receives exactly the `N` per-epoch scalar
losses, each evaluated on the parameters current at its epoch, in order —
with no early stopping and no dependence on the loss values encountered
(`lossOf` and `step` are arbitrary, so the count is unchanged whatever values,
including a model of NaN, the loss takes). -/
theorem train_runs_exactly_n_epochs {P O : Type} (lossOf : P → ℚ)
    (step : P → O → P × O) (n : ℕ) (s : TrainState P O) :
    trainLoop lossOf step n s =
      { params := (stepIter step n (s.params, s.optState)).1
        optState := (stepIter step n (s.params, s.optState)).2
        history := s.history ++ (List.range n).map
          (fun k => lossOf (stepIter step k (s.params, s.optState)).1) } ∧
    (trainLoop lossOf step n s).history.length = s.history.length + n := by
  refine ⟨trainLoop_spec lossOf step n s, ?_⟩
  rw [trainLoop_spec lossOf step n s]
  simp

/-! ## refine_alignment driver (lines 149–201)

The driver trains a refiner (the `trainLoop` model above), extracts its final
parameters, stores them as dataset metadata, and optionally overwrites layers
with their transformed values.  The `SKM` configuration module is not under
`src/`; its pieces are modelled from the spec where noted.  Training and the
stateless `transform` method act on tensors and enter as oracles. -/

/-- Value of one data layer: a float raster or a boolean raster (the dtype
read by `data.dtype == np.dtype(bool)` at line 199). -/
inductive LayerVal
  | floatArr (v : List (List ℚ))
  | boolArr (v : List (List Bool))

/-- Modelled from the spec: `SKM.UNS_SPATIAL_ALIGNMENT_KEY`, the single fixed
dataset-level metadata key under which the driver stores the trained
parameters (the `SKM` configuration module is absent from `src/`). -/
def UNS_SPATIAL_ALIGNMENT_KEY : String := "alignment"

/-- Embedding of the dataset as `refine_alignment` touches it: named layers
and the spatial metadata slots. -/
structure AData (P : Type) where
  layers : String → Option LayerVal
  unsSpatial : String → Option P

/-- Modelled from the spec: `SKM.set_layer_data`, overwriting one named layer
of the dataset in place. -/
def setLayerData {P : Type} (ad : AData P) (name : String) (v : LayerVal) :
    AData P :=
  { ad with layers := fun k => if k = name then some v else ad.layers k }

/-- Embedding of the per-layer body of the `transform_layers` loop
(lines 196–201): read the layer, apply the trained transform, re-binarize at
the 0.5 threshold when the original element type is boolean, and overwrite the
layer.  On a missing layer (where `SKM.select_layer_data` would raise) the
dataset is left unchanged; the claim theorem assumes every requested layer
exists, so that branch is never taken there. -/
def transformLayer {P : Type} (transform : P → LayerVal → List (List ℚ))
    (params : P) (ad : AData P) (name : String) : AData P :=
  match ad.layers name with
  | none => ad
  | some data =>
      let transformed := transform params data
      match data with
      | LayerVal.boolArr _ =>
          setLayerData ad name (LayerVal.boolArr
            (transformed.map (fun row => row.map (fun x => decide ((1 : ℚ) / 2 < x)))))
      | LayerVal.floatArr _ =>
          setLayerData ad name (LayerVal.floatArr transformed)

/-- Result of transforming one layer value: thresholded at 0.5 into booleans
when the original element type is boolean, continuous otherwise. -/
def expectedLayer {P : Type} (transform : P → LayerVal → List (List ℚ))
    (params : P) : LayerVal → LayerVal
  | LayerVal.boolArr v => LayerVal.boolArr
      ((transform params (LayerVal.boolArr v)).map
        (fun row => row.map (fun x => decide ((1 : ℚ) / 2 < x))))
  | LayerVal.floatArr v => LayerVal.floatArr (transform params (LayerVal.floatArr v))

/-- Embedding of the tail of `refine_alignment` (lines 192–201): store the
trained parameters under the fixed alignment key, then, when
`transform_layers` was supplied, transform and overwrite each named layer in
order (`if transform_layers:` skips the loop when the argument is absent). -/
def refine_alignment_apply {P : Type} (transform : P → LayerVal → List (List ℚ))
    (params : P) (transform_layers : Option (List String)) (ad : AData P) :
    AData P :=
  let ad1 : AData P :=
    { ad with unsSpatial := fun k =>
        if k = UNS_SPATIAL_ALIGNMENT_KEY then some params else ad.unsSpatial k }
  match transform_layers with
  | none => ad1
  | some ts => ts.foldl (transformLayer transform params) ad1

lemma transformLayer_unsSpatial {P : Type} (t : P → LayerVal → List (List ℚ))
    (p : P) (ad : AData P) (name : String) :
    (transformLayer t p ad name).unsSpatial = ad.unsSpatial := by
  unfold transformLayer
  rcases had : ad.layers name with _ | d
  · rfl
  · cases d <;> rfl

lemma transformLayer_layers_ne {P : Type} (t : P → LayerVal → List (List ℚ))
    (p : P) (ad : AData P) (name k : String) (hk : k ≠ name) :
    (transformLayer t p ad name).layers k = ad.layers k := by
  unfold transformLayer setLayerData
  rcases had : ad.layers name with _ | d
  · rfl
  · cases d <;> simp [hk]

lemma transformLayer_layers_self {P : Type} (t : P → LayerVal → List (List ℚ))
    (p : P) (ad : AData P) (name : String) (d : LayerVal)
    (had : ad.layers name = some d) :
    (transformLayer t p ad name).layers name = some (expectedLayer t p d) := by
  unfold transformLayer setLayerData expectedLayer
  rw [had]
  cases d <;> simp

lemma foldl_transformLayer_unsSpatial {P : Type}
    (t : P → LayerVal → List (List ℚ)) (p : P) (ts : List String) (ad : AData P) :
    (ts.foldl (transformLayer t p) ad).unsSpatial = ad.unsSpatial := by
  induction ts generalizing ad with
  | nil => rfl
  | cons a rest ih => rw [List.foldl_cons, ih, transformLayer_unsSpatial]

lemma foldl_transformLayer_layers_ne {P : Type}
    (t : P → LayerVal → List (List ℚ)) (p : P) (ts : List String) (ad : AData P)
    (name : String) (hname : name ∉ ts) :
    (ts.foldl (transformLayer t p) ad).layers name = ad.layers name := by
  induction ts generalizing ad with
  | nil => rfl
  | cons a rest ih =>
      rw [List.foldl_cons, ih _ (fun hm => hname (List.mem_cons_of_mem _ hm)),
        transformLayer_layers_ne]
      intro he
      exact hname (he ▸ List.mem_cons_self _ _)

lemma foldl_transformLayer_layers_mem {P : Type}
    (t : P → LayerVal → List (List ℚ)) (p : P) (ts : List String) (ad : AData P)
    (name : String) (hnd : ts.Nodup) (hname : name ∈ ts) (d : LayerVal)
    (had : ad.layers name = some d) :
    (ts.foldl (transformLayer t p) ad).layers name
      = some (expectedLayer t p d) := by
  induction ts generalizing ad with
  | nil => cases hname
  | cons a rest ih =>
      rw [List.foldl_cons]
      rcases List.mem_cons.mp hname with heq | hmem
      · subst heq
        rw [foldl_transformLayer_layers_ne t p rest _ name
          (List.nodup_cons.mp hnd).1]
        exact transformLayer_layers_self t p ad name d had
      · exact ih (transformLayer t p ad a) (List.nodup_cons.mp hnd).2 hmem
          (by rw [transformLayer_layers_ne t p ad a name
            (fun he => (List.nodup_cons.mp hnd).1 (he ▸ hmem))]
              exact had)

/-- C8: `refine_alignment` stores the trained parameters under the single
fixed alignment key (leaving every other metadata slot unchanged); when
`transform_layers` is absent no layer is modified; when it is supplied (with
distinct names, all present), exactly the named layers are overwritten — each
with the transform of its original data, re-binarized at the 0.5 threshold
when the original element type is boolean and kept continuous otherwise —
while every other layer is untouched. -/
theorem refine_alignment_effects {P : Type}
    (transform : P → LayerVal → List (List ℚ)) (params : P)
    (transform_layers : Option (List String)) (ad : AData P)
    (hnodup : ∀ ts, transform_layers = some ts → ts.Nodup) :
    ((refine_alignment_apply transform params transform_layers ad).unsSpatial
        UNS_SPATIAL_ALIGNMENT_KEY = some params) ∧
    (∀ k, k ≠ UNS_SPATIAL_ALIGNMENT_KEY →
      (refine_alignment_apply transform params transform_layers ad).unsSpatial k
        = ad.unsSpatial k) ∧
    (transform_layers = none →
      ∀ name, (refine_alignment_apply transform params transform_layers ad).layers name
        = ad.layers name) ∧
    (∀ ts, transform_layers = some ts →
      (∀ name, name ∉ ts →
        (refine_alignment_apply transform params transform_layers ad).layers name
          = ad.layers name) ∧
      (∀ name ∈ ts, ∀ d, ad.layers name = some d →
        (refine_alignment_apply transform params transform_layers ad).layers name
          = some (expectedLayer transform params d))) := by
  cases transform_layers with
  | none =>
      refine ⟨by simp [refine_alignment_apply], ?_, ?_, ?_⟩
      · intro k hk
        simp [refine_alignment_apply, hk]
      · intro _ name
        rfl
      · intro ts hts
        cases hts
  | some ts =>
      have hnd : ts.Nodup := hnodup ts rfl
      refine ⟨?_, ?_, ?_, ?_⟩
      · show (ts.foldl (transformLayer transform params) _).unsSpatial _ = _
        rw [foldl_transformLayer_unsSpatial]
        simp
      · intro k hk
        show (ts.foldl (transformLayer transform params) _).unsSpatial _ = _
        rw [foldl_transformLayer_unsSpatial]
        simp [hk]
      · intro hcontra
        cases hcontra
      · intro ts2 hts2
        injection hts2 with hts2
        subst hts2
        constructor
        · intro name hname
          exact foldl_transformLayer_layers_ne transform params ts _ name hname
        · intro name hname d had
          exact foldl_transformLayer_layers_mem transform params ts _ name hnd
            hname d had

/-- Witness for C8 on a concrete dataset with one float layer, transforming
that single layer. -/
theorem refine_alignment_effects_witness :
    (refine_alignment_apply (fun (_ : ℕ) _ => [[1]]) 7 (some ["img"])
        ⟨fun k => if k = "img" then some (LayerVal.floatArr [[0]]) else none,
          fun _ => none⟩).unsSpatial UNS_SPATIAL_ALIGNMENT_KEY = some 7 :=
  (refine_alignment_effects (fun (_ : ℕ) _ => [[1]]) 7 (some ["img"])
    ⟨fun k => if k = "img" then some (LayerVal.floatArr [[0]]) else none,
      fun _ => none⟩
    (by
      intro ts hts
      injection hts with hts
      subst hts
      exact List.nodup_singleton _)).1

/-! ## z-coordinate assignment (`slice_alignment`, lines 213–218) -/

/-- Decimal value of a digit run, the number `float(z)` reads from the
matched group. -/
def digitsToNat (ds : List Char) : ℕ :=
  ds.foldl (fun acc c => 10 * acc + (c.toNat - 48)) 0

/-- Embedding of `re.findall(r"_S(\d+)", s)[0]` on the character list: scan
left to right; at the first position where the literal `_S` is followed by a
nonempty (maximal, since `\d+` is greedy) digit run, return that run's value;
`none` when no position matches — there the source raises `IndexError`. -/
def findSAux : List Char → Option ℕ
  | [] => none
  | c :: cs =>
      if c = '_' then
        match cs with
        | 'S' :: rest =>
            if (rest.takeWhile Char.isDigit) ≠ [] then
              some (digitsToNat (rest.takeWhile Char.isDigit))
            else findSAux cs
        | _ => findSAux cs
      else findSAux cs

/-- First `_S<digits>` group of an identifier string. -/
def findSGroup (s : String) : Option ℕ := findSAux s.data

/-- Slice fields read by the z-assignment loop: the identifier
`slice.obs["slice_ID"][0]` and the 2-column `obsm["spatial"]` coordinates
produced by the pairwise passes. -/
structure ZSlice where
  slice_ID : String
  spatial : List (ℚ × ℚ)

/-- Slice fields after the loop: the 3-column spatial coordinates and the
derived observation columns `new_x`, `new_y` and the scalar `new_z` broadcast
over the column. -/
structure ZSlice3 where
  slice_ID : String
  spatial3 : List (ℚ × ℚ × ℚ)
  new_x : List ℚ
  new_y : List ℚ
  new_z : ℚ

/-- Embedding of the loop body for one slice:
`z = re.findall(r"_S(\d+)", slice.obs["slice_ID"][0])[0]`, copy the spatial
`x` and `y` columns into `new_x`/`new_y`, set the spatial `z` column and
`new_z` to `float(z)`.  `none` models the `IndexError` on an identifier with
no `_S<digits>` group. -/
def assignZ (s : ZSlice) : Option ZSlice3 :=
  match findSGroup s.slice_ID with
  | none => none
  | some z => some
      { slice_ID := s.slice_ID
        spatial3 := s.spatial.map (fun p => (p.1, p.2, (z : ℚ)))
        new_x := s.spatial.map Prod.fst
        new_y := s.spatial.map Prod.snd
        new_z := (z : ℚ) }

/-- Embedding of the whole loop at lines 213–218: every slice of the list,
first and last included, passes through `assignZ`. -/
def zPass (slices : List ZSlice) : Option (List ZSlice3) :=
  slices.mapM assignZ

lemma zPass_cons (s : ZSlice) (rest : List ZSlice) (out : List ZSlice3)
    (h : zPass (s :: rest) = some out) :
    ∃ t ts, assignZ s = some t ∧ zPass rest = some ts ∧ out = t :: ts := by
  unfold zPass at h ⊢
  rw [List.mapM_cons] at h
  cases ha : assignZ s with
  | none =>
      rw [ha] at h
      cases h
  | some t =>
      rw [ha] at h
      cases hr : rest.mapM assignZ with
      | none =>
          rw [hr] at h
          cases h
      | some ts =>
          rw [hr] at h
          simp only [Option.bind_eq_bind, Option.some_bind, Option.pure_def,
            Option.some.injEq] at h
          exact ⟨t, ts, rfl, rfl, h.symm⟩

/-- C9: whenever the loop completes (each identifier has a `_S<digits>`
group), every slice of the list — first and last included — is assigned a
z-coordinate equal to the numeric value of the first `_S<digits>` group of its
identifier; the same value is recorded both in `new_z` and in the `z` column
of the spatial coordinates, giving a 3D point per row; the `x` and `y`
coordinates from the pairwise passes are carried over unchanged into the 3D
points and into `new_x`/`new_y`. -/
theorem zPass_assigns_section_index (slices : List ZSlice)
    (out : List ZSlice3) (h : zPass slices = some out) :
    out.length = slices.length ∧
    ∀ i (hi : i < slices.length) (ho : i < out.length),
      ∃ z, findSGroup (slices.get ⟨i, hi⟩).slice_ID = some z ∧
        (out.get ⟨i, ho⟩).new_z = (z : ℚ) ∧
        (out.get ⟨i, ho⟩).spatial3
          = (slices.get ⟨i, hi⟩).spatial.map (fun p => (p.1, p.2, (z : ℚ))) ∧
        (out.get ⟨i, ho⟩).new_x = (slices.get ⟨i, hi⟩).spatial.map Prod.fst ∧
        (out.get ⟨i, ho⟩).new_y = (slices.get ⟨i, hi⟩).spatial.map Prod.snd := by
  induction slices generalizing out with
  | nil =>
      unfold zPass at h
      simp only [List.mapM_nil, pure, Option.some.injEq] at h
      subst h
      exact ⟨rfl, fun i hi _ => absurd hi (by simp)⟩
  | cons s rest ih =>
      obtain ⟨t, ts, ht, hts, hout⟩ := zPass_cons s rest out h
      subst hout
      obtain ⟨hlen, hall⟩ := ih ts hts
      refine ⟨by simp [hlen], ?_⟩
      intro i hi ho
      cases i with
      | zero =>
          unfold assignZ at ht
          cases hz : findSGroup s.slice_ID with
          | none =>
              rw [hz] at ht
              cases ht
          | some z =>
              rw [hz] at ht
              injection ht with ht
              subst ht
              exact ⟨z, hz, rfl, rfl, rfl, rfl⟩
      | succ i2 =>
          have hi2 : i2 < rest.length := by simpa using hi
          have ho2 : i2 < ts.length := by simpa using ho
          obtain ⟨z, hz, h1, h2, h3, h4⟩ := hall i2 hi2 ho2
          exact ⟨z, hz, h1, h2, h3, h4⟩

/-- Witness for C9 on the concrete one-slice list with identifier
`"embryo_S5"` and one point `(1, 2)`. -/
theorem zPass_assigns_section_index_witness :
    ([{ slice_ID := "embryo_S5", spatial3 := [((1 : ℚ), (2 : ℚ), (5 : ℚ))],
        new_x := [1], new_y := [2], new_z := 5 }] : List ZSlice3).length
      = ([⟨"embryo_S5", [((1 : ℚ), (2 : ℚ))]⟩] : List ZSlice).length :=
  (zPass_assigns_section_index [⟨"embryo_S5", [((1 : ℚ), (2 : ℚ))]⟩]
    [{ slice_ID := "embryo_S5", spatial3 := [((1 : ℚ), (2 : ℚ), (5 : ℚ))],
        new_x := [1], new_y := [2], new_z := 5 }] (by rfl)).1

end Spateo
